import Mathlib

/-!
Verification of the Kademlia DHT implementation (`kademlia/kademlia.py`)
against its design specification.

The Python classes `KademliaNode` and `KademliaDHT` are shallowly embedded:
dictionaries become functions into `Option`, the 160-entry bucket list
becomes a `List (List Nat)`, and identifiers / hashes become `Nat`.
The SHA-1 key hash is an external collaborator in the design (a black-box
`Hash : bytes -> identifier`), so every definition that hashes a key takes
an arbitrary `Hash : String → Nat` parameter.
-/

namespace Kademlia

/-- XOR distance between two identifiers (`KademliaNode.distance`):
`return id1 ^ id2`. -/
def distance (id1 id2 : Nat) : Nat := id1 ^^^ id2

/-- Python `int.bit_length()` on a non-negative integer: the number of bits
needed to represent it, i.e. `Nat.size`. -/
def bit_length (n : Nat) : Nat := Nat.size n

/-- A Kademlia node (`KademliaNode.__init__`): an identifier, the bucket
capacity `k`, 160 buckets of identifiers, and the local storage dictionary
(modelled as a function from key hash to optional value). -/
structure KademliaNode where
  node_id : Nat
  k : Nat
  buckets : List (List Nat)
  storage : Nat → Option String

/-- A freshly constructed node: 160 empty buckets, empty storage. -/
def initNode (node_id : Nat) (k : Nat) : KademliaNode :=
  { node_id := node_id, k := k
    buckets := List.replicate 160 []
    storage := fun _ => none }

/-- `KademliaNode.bucket_index`:
`distance.bit_length() - 1 if distance > 0 else 0`. -/
def bucket_index (t : KademliaNode) (node_id : Nat) : Nat :=
  let d := distance t.node_id node_id
  if d > 0 then bit_length d - 1 else 0

/-- The per-bucket insertion policy executed by `KademliaNode.add_node`
on the selected bucket: if present, `remove` (first occurrence) then
`append` (move to tail); else if below capacity, `append`; else `pop(0)`
(evict head) then `append`. -/
def bucketInsert (k : Nat) (bucket : List Nat) (node_id : Nat) : List Nat :=
  if node_id ∈ bucket then bucket.erase node_id ++ [node_id]
  else if bucket.length < k then bucket ++ [node_id]
  else bucket.tail ++ [node_id]

/-- `KademliaNode.add_node`: silently returns when inserting the node's own
identifier, otherwise updates the bucket at `bucket_index`.  Python indexes
`self.buckets[bucket_idx]` directly; the model uses `getD`/`set`, which agree
with Python whenever the index is in range (identifiers below `2 ^ 160`). -/
def add_node (t : KademliaNode) (node_id : Nat) : KademliaNode :=
  if node_id = t.node_id then t
  else
    let bucket_idx := bucket_index t node_id
    let bucket := t.buckets.getD bucket_idx []
    { t with buckets := t.buckets.set bucket_idx (bucketInsert t.k bucket node_id) }

/-- Python `count or self.k` on an optional non-negative count: both `None`
and `0` are falsy and replaced by the default. -/
def pyOrNat (count : Option Nat) (d : Nat) : Nat :=
  match count with
  | none => d
  | some c => if c = 0 then d else c

/-- `KademliaNode.find_closest_nodes`: concatenate all buckets, sort by XOR
distance to the target (Python's stable `list.sort(key=...)`; XOR distance to
a fixed target is injective, so any stable sort yields the same list), take
the first `count`. -/
def find_closest_nodes (t : KademliaNode) (target_id : Nat) (count : Option Nat) : List Nat :=
  let c := pyOrNat count t.k
  let all_nodes := t.buckets.flatten
  (all_nodes.mergeSort fun a b => decide (distance target_id a ≤ distance target_id b)).take c

/-- `KademliaNode.store`: `storage[hash(key)] = value` (dictionary update,
last write wins). -/
def store (Hash : String → Nat) (t : KademliaNode) (key value : String) : KademliaNode :=
  let key_hash := Hash key
  { t with storage := fun h => if h = key_hash then some value else t.storage h }

/-- `KademliaNode.find_value`: `storage.get(hash(key))`, `None` on a miss. -/
def find_value (Hash : String → Nat) (t : KademliaNode) (key : String) : Option String :=
  t.storage (Hash key)

/-- `KademliaDHT.__init__`: the registry, a dictionary from identifier to
node. -/
structure KademliaDHT where
  nodes : Nat → Option KademliaNode

/-- `KademliaDHT.add_node`: register (or overwrite) a node under its id. -/
def dht_add_node (dht : KademliaDHT) (node : KademliaNode) : KademliaDHT :=
  { nodes := fun i => if i = node.node_id then some node else dht.nodes i }

/-- Python truthiness of an `Optional[str]`: `None` and `""` are falsy. -/
def pyTruthy (v : Option String) : Bool :=
  match v with
  | none => false
  | some s => !(s == "")

/-- The candidate loop inside `KademliaDHT.lookup`: for each candidate in
order, skip identifiers missing from the registry, return the first value
that is truthy. -/
def scanCandidates (Hash : String → Nat) (dht : KademliaDHT) (target_key : String) :
    List Nat → Option String
  | [] => none
  | c :: rest =>
    match dht.nodes c with
    | none => scanCandidates Hash dht target_key rest
    | some n =>
      let value := find_value Hash n target_key
      if pyTruthy value then value else scanCandidates Hash dht target_key rest

/-- `KademliaDHT.lookup`: unknown origin returns `None`; then the origin's
local storage is consulted (`if value:` — Python truthiness); on a falsy
result the closest candidates (default count) are scanned. -/
def lookup (Hash : String → Nat) (dht : KademliaDHT) (node_id : Nat) (target_key : String) :
    Option String :=
  match dht.nodes node_id with
  | none => none
  | some node =>
    let key_hash := Hash target_key
    let value := find_value Hash node target_key
    if pyTruthy value then value
    else scanCandidates Hash dht target_key (find_closest_nodes node key_hash none)

/-- The candidate list a lookup from `origin` for `key` iterates: the
origin's closest known identifiers to `Hash key` (empty when the origin is
not registered).  Statement helper for the lookup theorems. -/
def lookupCandidates (Hash : String → Nat) (dht : KademliaDHT) (origin : Nat) (key : String) :
    List Nat :=
  match dht.nodes origin with
  | none => []
  | some node => find_closest_nodes node (Hash key) none

/-- Modelled from the spec (§4.6, amended claim C1): the contribution of one
candidate identifier — `none` when the identifier does not resolve in the
registry or when its storage yields no non-empty value for the key. -/
def candidateHit (Hash : String → Nat) (dht : KademliaDHT) (key : String) (c : Nat) :
    Option String :=
  match dht.nodes c with
  | none => none
  | some n =>
    match find_value Hash n key with
    | none => none
    | some v => if v = "" then none else some v

/-- Modelled from the spec (§4.6, amended claim C1): unregistered origin is
not-found; a non-empty local value is returned; otherwise the first
candidate hit (in candidate order, unresolved candidates skipped) or
not-found. -/
def lookupSpec (Hash : String → Nat) (dht : KademliaDHT) (origin : Nat) (key : String) :
    Option String :=
  match dht.nodes origin with
  | none => none
  | some node =>
    match find_value Hash node key with
    | some v =>
      if v = "" then
        ((lookupCandidates Hash dht origin key).filterMap (candidateHit Hash dht key)).head?
      else some v
    | none =>
      ((lookupCandidates Hash dht origin key).filterMap (candidateHit Hash dht key)).head?

/-- The routing-table invariants of claim C5: every bucket is within
capacity and duplicate-free, an identifier occurs in at most one bucket,
and the owner's identifier occurs in no bucket. -/
def routingTableInv (t : KademliaNode) : Prop :=
  (∀ b ∈ t.buckets, b.length ≤ t.k ∧ b.Nodup) ∧
  (∀ i j id, id ∈ t.buckets.getD i [] → id ∈ t.buckets.getD j [] → i = j) ∧
  (∀ b ∈ t.buckets, t.node_id ∉ b)

/-- Strengthened inductive invariant: buckets are within capacity and
duplicate-free, and every stored identifier lies in the bucket its
`bucket_index` selects and differs from the owner's identifier. -/
def tableAux (t : KademliaNode) : Prop :=
  (∀ b ∈ t.buckets, b.length ≤ t.k ∧ b.Nodup) ∧
  (∀ i id, id ∈ t.buckets.getD i [] → bucket_index t id = i ∧ id ≠ t.node_id)

/-! ## Helper lemmas -/

/-- XOR of naturals is bounded by their sum (bitwise, no carries). -/
theorem xor_le_add (a : Nat) : ∀ b : Nat, a ^^^ b ≤ a + b := by
  induction a using Nat.binaryRec with
  | z => intro b; simp
  | f ba m ih =>
    intro b
    induction b using Nat.bitCasesOn with
    | h bb n =>
      rw [Nat.xor_bit, Nat.bit_val, Nat.bit_val, Nat.bit_val]
      have h := ih n
      cases ba <;> cases bb <;> simp [Bool.toNat] <;> omega

/-! ## Claim C4 -/

/-- Claim C4: the XOR distance is symmetric, zero exactly on equal
identifiers, satisfies the triangle inequality, and for every identifier
`a` and magnitude `d` exactly one `b` lies at distance `d` from `a`. -/
theorem C4_distance_metric :
    (∀ a b, distance a b = distance b a) ∧
    (∀ a b, distance a b = 0 ↔ a = b) ∧
    (∀ a b c, distance a b ≤ distance a c + distance c b) ∧
    (∀ a d, ∃! b, distance a b = d) := by
  refine ⟨fun a b => Nat.xor_comm a b, fun a b => Nat.xor_eq_zero, ?_, ?_⟩
  · intro a b c
    have hdec : a ^^^ b = (a ^^^ c) ^^^ (c ^^^ b) := by
      rw [Nat.xor_assoc, Nat.xor_cancel_left]
    calc a ^^^ b = (a ^^^ c) ^^^ (c ^^^ b) := hdec
      _ ≤ (a ^^^ c) + (c ^^^ b) := xor_le_add _ _
  · intro a d
    refine ⟨a ^^^ d, Nat.xor_cancel_left a d, fun y hy => ?_⟩
    have h1 := congrArg (fun z => a ^^^ z) hy
    simpa [distance, Nat.xor_cancel_left] using h1

/-! ## Claim C6 -/

/-- Claim C6: `store` followed by `find_value` with the same key returns the
stored value; a second `store` with the same key overwrites the first; and
`find_value` on an absent key returns the not-found signal `none` as an
ordinary value (the function is total). -/
theorem C6_storage_contract (Hash : String → Nat) (t : KademliaNode) (key v v1 v2 : String) :
    find_value Hash (store Hash t key v) key = some v ∧
    find_value Hash (store Hash (store Hash t key v1) key v2) key = some v2 ∧
    (t.storage (Hash key) = none → find_value Hash t key = none) := by
  refine ⟨?_, ?_, fun h => h⟩ <;> simp [find_value, store]

/-! ## Claim C8 -/

/-- Claim C8 counterexample: inserting a node's own identifier into its own
routing table does not fail loudly — `add_node` returns normally with the
table unchanged (the Python method hits `return` on its first line). -/
theorem C8_counterexample :
    add_node (initNode 1 20) 1 = initNode 1 20 := by
  simp [add_node, initNode]

/-- Claim C8 (amended): inserting a node's own identifier into its own
routing table is a silent no-op — the call returns normally and leaves the
node completely unchanged. -/
theorem C8_self_insert_silent_noop (t : KademliaNode) (node_id : Nat)
    (h : node_id = t.node_id) : add_node t node_id = t := by
  simp [add_node, h]

/-- Witness for the amended claim C8 at a concrete node. -/
theorem C8_self_insert_silent_noop_witness :
    (1 : Nat) = (initNode 1 20).node_id ∧ add_node (initNode 1 20) 1 = initNode 1 20 :=
  ⟨rfl, C8_self_insert_silent_noop (initNode 1 20) 1 rfl⟩

/-! ## Claim C7 -/

/-- Claim C7: `bucket_index` is monotone in the XOR distance on nonzero
distances, equals `bit_length(distance) - 1` clamped to `0` at distance `0`,
and lies in `[0, 160)` for 160-bit identifiers. -/
theorem C7_bucket_index_props (t : KademliaNode) (x y other : Nat)
    (hx : distance t.node_id x ≠ 0) (hy : distance t.node_id y ≠ 0)
    (hlt : distance t.node_id x < distance t.node_id y)
    (hself : t.node_id < 2 ^ 160) (hother : other < 2 ^ 160) :
    bucket_index t x ≤ bucket_index t y ∧
    bucket_index t other =
      (if 0 < distance t.node_id other then bit_length (distance t.node_id other) - 1 else 0) ∧
    bucket_index t other < 160 := by
  refine ⟨?_, rfl, ?_⟩
  · have hx0 : 0 < distance t.node_id x := Nat.pos_of_ne_zero hx
    have hy0 : 0 < distance t.node_id y := Nat.pos_of_ne_zero hy
    show (if 0 < distance t.node_id x then bit_length (distance t.node_id x) - 1 else 0) ≤
      (if 0 < distance t.node_id y then bit_length (distance t.node_id y) - 1 else 0)
    rw [if_pos hx0, if_pos hy0]
    exact Nat.sub_le_sub_right (Nat.size_le_size (Nat.le_of_lt hlt)) 1
  · show (if 0 < distance t.node_id other then bit_length (distance t.node_id other) - 1 else 0) < 160
    by_cases h0 : 0 < distance t.node_id other
    · rw [if_pos h0]
      have hlt2 : distance t.node_id other < 2 ^ 160 := Nat.xor_lt_two_pow hself hother
      have hsz : Nat.size (distance t.node_id other) ≤ 160 := Nat.size_le.mpr hlt2
      have hpos : 0 < Nat.size (distance t.node_id other) := Nat.size_pos.mpr h0
      show Nat.size (distance t.node_id other) - 1 < 160
      omega
    · rw [if_neg h0]; omega

/-- Witness for claim C7 at concrete identifiers. -/
theorem C7_bucket_index_props_witness :
    distance 1 3 ≠ 0 ∧ distance 1 5 ≠ 0 ∧ distance 1 3 < distance 1 5 ∧
    (1 : Nat) < 2 ^ 160 ∧ (2 : Nat) < 2 ^ 160 ∧
    (bucket_index ⟨1, 20, [], fun _ => none⟩ 3 ≤ bucket_index ⟨1, 20, [], fun _ => none⟩ 5 ∧
      bucket_index ⟨1, 20, [], fun _ => none⟩ 2 =
        (if 0 < distance 1 2 then bit_length (distance 1 2) - 1 else 0) ∧
      bucket_index ⟨1, 20, [], fun _ => none⟩ 2 < 160) :=
  ⟨by decide, by decide, by decide, by norm_num, by norm_num,
    C7_bucket_index_props ⟨1, 20, [], fun _ => none⟩ 3 5 2
      (by decide) (by decide) (by decide) (by norm_num) (by norm_num)⟩

/-! ## Claim C3 -/

/-- One `bucketInsert` keeps a bucket within capacity `k` (for `0 < k`). -/
theorem bucketInsert_length_le (k : Nat) (bucket : List Nat) (id : Nat)
    (hk : 0 < k) (hlen : bucket.length ≤ k) : (bucketInsert k bucket id).length ≤ k := by
  unfold bucketInsert
  by_cases hmem : id ∈ bucket
  · rw [if_pos hmem, List.length_append, List.length_erase_of_mem hmem]
    have h0 : 0 < bucket.length := List.length_pos.mpr (List.ne_nil_of_mem hmem)
    simp
    omega
  · rw [if_neg hmem]
    by_cases hl : bucket.length < k
    · rw [if_pos hl]
      simp
      omega
    · rw [if_neg hl, List.length_append, List.length_tail]
      simp
      omega

/-- Claim C3: the bucket insertion policy — move-to-tail without length
change when present, append when below capacity, head (least-recently-seen)
eviction plus append when full — and capacity `k` is never exceeded by any
sequence of insertions. -/
theorem C3_bucket_insert_policy (k : Nat) (bucket : List Nat) (node_id : Nat) (ids : List Nat)
    (hk : 0 < k) (hlen : bucket.length ≤ k) :
    (node_id ∈ bucket → bucketInsert k bucket node_id = bucket.erase node_id ++ [node_id] ∧
      (bucketInsert k bucket node_id).length = bucket.length) ∧
    (node_id ∉ bucket → bucket.length < k → bucketInsert k bucket node_id = bucket ++ [node_id]) ∧
    (node_id ∉ bucket → k ≤ bucket.length →
      bucketInsert k bucket node_id = bucket.tail ++ [node_id]) ∧
    (bucketInsert k bucket node_id).length ≤ k ∧
    (ids.foldl (bucketInsert k) bucket).length ≤ k := by
  refine ⟨?_, ?_, ?_, bucketInsert_length_le k bucket node_id hk hlen, ?_⟩
  · intro hmem
    refine ⟨by simp [bucketInsert, hmem], ?_⟩
    have h0 : 0 < bucket.length := List.length_pos.mpr (List.ne_nil_of_mem hmem)
    simp [bucketInsert, hmem, List.length_erase_of_mem hmem]
    omega
  · intro hmem hl
    simp [bucketInsert, hmem, hl]
  · intro hmem hl
    simp [bucketInsert, hmem, Nat.not_lt.mpr hl]
  · induction ids generalizing bucket with
    | nil => simpa
    | cons i rest ih =>
      simp only [List.foldl_cons]
      exact ih _ (bucketInsert_length_le k bucket i hk hlen)

/-- Witness for claim C3 at a concrete bucket. -/
theorem C3_bucket_insert_policy_witness :
    0 < 2 ∧ ([5] : List Nat).length ≤ 2 ∧
    ((7 ∈ ([5] : List Nat) → bucketInsert 2 [5] 7 = ([5] : List Nat).erase 7 ++ [7] ∧
        (bucketInsert 2 [5] 7).length = ([5] : List Nat).length) ∧
      (7 ∉ ([5] : List Nat) → ([5] : List Nat).length < 2 → bucketInsert 2 [5] 7 = [5] ++ [7]) ∧
      (7 ∉ ([5] : List Nat) → 2 ≤ ([5] : List Nat).length →
        bucketInsert 2 [5] 7 = ([5] : List Nat).tail ++ [7]) ∧
      (bucketInsert 2 [5] 7).length ≤ 2 ∧
      (([7, 8, 9] : List Nat).foldl (bucketInsert 2) [5]).length ≤ 2) :=
  ⟨by decide, by decide, C3_bucket_insert_policy 2 [5] 7 [7, 8, 9] (by decide) (by decide)⟩

/-! ## Claim C10 -/

/-- Claim C10: an explicit count of `0` is falsy in Python, so
`find_closest_nodes` with count `0` behaves like the default count `k`:
it returns the first `min k totalKnown` members, not the empty list. -/
theorem C10_zero_count_defaults (t : KademliaNode) (target_id : Nat) :
    find_closest_nodes t target_id (some 0) = find_closest_nodes t target_id none ∧
    (find_closest_nodes t target_id (some 0)).length = min t.k t.buckets.flatten.length ∧
    (0 < t.k → t.buckets.flatten ≠ [] → find_closest_nodes t target_id (some 0) ≠ []) := by
  have hlen : (find_closest_nodes t target_id (some 0)).length
      = min t.k t.buckets.flatten.length := by
    simp [find_closest_nodes, pyOrNat]
  refine ⟨rfl, hlen, ?_⟩
  intro hk hflat
  have h1 : 0 < t.buckets.flatten.length := List.length_pos.mpr hflat
  have h2 : 0 < (find_closest_nodes t target_id (some 0)).length := by omega
  exact List.ne_nil_of_length_pos h2

/-! ## Claim C2 -/

/-- The candidate list produced by `find_closest_nodes` is sorted by
non-decreasing XOR distance to the target. -/
theorem pairwise_find_closest (t : KademliaNode) (target_id : Nat) (count : Option Nat) :
    List.Pairwise (fun a b => distance target_id a ≤ distance target_id b)
      (find_closest_nodes t target_id count) := by
  have hs := @List.sorted_mergeSort Nat
    (fun a b => decide (distance target_id a ≤ distance target_id b))
    (fun a b c hab hbc => by simp_all; omega)
    (fun a b => by simp [Nat.le_total])
    t.buckets.flatten
  have ht : find_closest_nodes t target_id count
      = (t.buckets.flatten.mergeSort
          fun a b => decide (distance target_id a ≤ distance target_id b)).take
        (pyOrNat count t.k) := rfl
  rw [ht]
  exact (List.Pairwise.sublist (List.take_sublist _ _) hs).imp (by simp)

/-- Claim C2 counterexample: with one known member and an explicit count of
`0`, `find_closest_nodes` returns one identifier, not `min 0 totalKnown = 0`
of them (Python replaces the falsy count `0` by `k`). -/
theorem C2_counterexample :
    (find_closest_nodes ⟨0, 20, [[1]], fun _ => none⟩ 0 (some 0)).length ≠
      min 0 (⟨0, 20, [[1]], fun _ => none⟩ : KademliaNode).buckets.flatten.length := by
  simp [find_closest_nodes, pyOrNat, List.mergeSort]

/-- Claim C2 (amended): for every requested count `n ≥ 1`,
`find_closest_nodes` returns known identifiers sorted by non-decreasing XOR
distance to the target, of length `min n totalKnown`; when `n` is at least
the number of known members it returns all of them (and, being a total
function, it never raises). -/
theorem C2_find_closest_contract (t : KademliaNode) (target_id n : Nat) (hn : 0 < n) :
    List.Pairwise (fun a b => distance target_id a ≤ distance target_id b)
      (find_closest_nodes t target_id (some n)) ∧
    (find_closest_nodes t target_id (some n)).length = min n t.buckets.flatten.length ∧
    find_closest_nodes t target_id (some n) ⊆ t.buckets.flatten ∧
    (t.buckets.flatten.length ≤ n →
      (find_closest_nodes t target_id (some n)).Perm t.buckets.flatten) := by
  have hn0 : n ≠ 0 := Nat.pos_iff_ne_zero.mp hn
  have hpy : pyOrNat (some n) t.k = n := by simp [pyOrNat, hn0]
  have ht : find_closest_nodes t target_id (some n)
      = (t.buckets.flatten.mergeSort
          fun a b => decide (distance target_id a ≤ distance target_id b)).take n := by
    unfold find_closest_nodes
    rw [hpy]
  refine ⟨pairwise_find_closest t target_id (some n), ?_, ?_, ?_⟩
  · rw [ht]
    simp [List.length_take]
  · intro x hx
    rw [ht] at hx
    exact List.mem_mergeSort.mp (List.take_subset _ _ hx)
  · intro hle
    rw [ht, List.take_of_length_le (by simpa using hle)]
    exact List.mergeSort_perm _ _

/-- Witness for the amended claim C2 at a concrete routing table. -/
theorem C2_find_closest_contract_witness :
    0 < 1 ∧
    (List.Pairwise (fun a b => distance 0 a ≤ distance 0 b)
        (find_closest_nodes ⟨0, 20, [[1]], fun _ => none⟩ 0 (some 1)) ∧
      (find_closest_nodes ⟨0, 20, [[1]], fun _ => none⟩ 0 (some 1)).length =
        min 1 (⟨0, 20, [[1]], fun _ => none⟩ : KademliaNode).buckets.flatten.length ∧
      find_closest_nodes ⟨0, 20, [[1]], fun _ => none⟩ 0 (some 1) ⊆
        (⟨0, 20, [[1]], fun _ => none⟩ : KademliaNode).buckets.flatten ∧
      ((⟨0, 20, [[1]], fun _ => none⟩ : KademliaNode).buckets.flatten.length ≤ 1 →
        (find_closest_nodes ⟨0, 20, [[1]], fun _ => none⟩ 0 (some 1)).Perm
          (⟨0, 20, [[1]], fun _ => none⟩ : KademliaNode).buckets.flatten)) :=
  ⟨by decide, C2_find_closest_contract ⟨0, 20, [[1]], fun _ => none⟩ 0 1 (by decide)⟩

/-! ## Claim C1 -/

/-- Flattening any number of empty buckets yields no candidates. -/
theorem flatten_replicate_nil (n : Nat) : (List.replicate n ([] : List Nat)).flatten = [] := by
  induction n with
  | zero => rfl
  | succ m ih => simp [List.replicate_succ, ih]

/-- The candidate loop of `lookup` returns the first non-empty value held by
a registry-resolvable candidate, in candidate order. -/
theorem scanCandidates_eq_filterMap (Hash : String → Nat) (dht : KademliaDHT) (key : String)
    (cs : List Nat) :
    scanCandidates Hash dht key cs = (cs.filterMap (candidateHit Hash dht key)).head? := by
  induction cs with
  | nil => rfl
  | cons c rest ih =>
    cases h : dht.nodes c with
    | none => simp [scanCandidates, List.filterMap_cons, candidateHit, h, ih]
    | some n =>
      cases hv : find_value Hash n key with
      | none => simp [scanCandidates, List.filterMap_cons, candidateHit, h, hv, pyTruthy, ih]
      | some v =>
        by_cases hv0 : v = ""
        · subst hv0
          simp [scanCandidates, List.filterMap_cons, candidateHit, h, hv, pyTruthy, ih]
        · simp [scanCandidates, List.filterMap_cons, candidateHit, h, hv, pyTruthy, hv0]

/-- Claim C1 counterexample: the origin itself is registered and its local
storage holds the key (with value `""`), yet `lookup` reports not-found
instead of returning the stored local value — `if value:` tests truthiness,
and the empty string is falsy. -/
theorem C1_counterexample :
    find_value (fun _ => 0) (store (fun _ => 0) (initNode 1 20) "k" "") "k" = some "" ∧
    lookup (fun _ => 0)
      (dht_add_node ⟨fun _ => none⟩ (store (fun _ => 0) (initNode 1 20) "k" "")) 1 "k" = none ∧
    (none : Option String) ≠ some "" := by
  have hflat : (List.replicate 160 ([] : List Nat)).flatten = [] := flatten_replicate_nil 160
  refine ⟨rfl, ?_, by decide⟩
  simp [lookup, dht_add_node, store, initNode, find_value, pyTruthy, find_closest_nodes,
    pyOrNat, hflat, scanCandidates]

/-- Claim C1 (amended): `lookup` returns not-found for an unregistered
origin; returns the origin's local value when it is non-empty; otherwise
scans the origin's closest candidates — which are ordered by non-decreasing
XOR distance to `Hash key` — skipping unresolvable candidate identifiers,
and returns the first non-empty candidate value, or not-found when no
candidate yields one.  (`lookupSpec` states exactly this protocol.) -/
theorem C1_lookup_protocol (Hash : String → Nat) (dht : KademliaDHT) (origin : Nat)
    (key : String) :
    lookup Hash dht origin key = lookupSpec Hash dht origin key ∧
    List.Pairwise (fun a b => distance (Hash key) a ≤ distance (Hash key) b)
      (lookupCandidates Hash dht origin key) := by
  constructor
  · cases h : dht.nodes origin with
    | none => simp [lookup, lookupSpec, h]
    | some node =>
      cases hv : find_value Hash node key with
      | none =>
        simp [lookup, lookupSpec, lookupCandidates, h, hv, pyTruthy,
          scanCandidates_eq_filterMap]
      | some v =>
        by_cases hv0 : v = ""
        · subst hv0
          simp [lookup, lookupSpec, lookupCandidates, h, hv, pyTruthy,
            scanCandidates_eq_filterMap]
        · simp [lookup, lookupSpec, lookupCandidates, h, hv, pyTruthy, hv0]
  · cases h : dht.nodes origin with
    | none => simp [lookupCandidates, h]
    | some node =>
      simpa [lookupCandidates, h] using pairwise_find_closest node (Hash key) none

/-! ## Claim C9 -/

/-- Claim C9: when every registered node's value for the key is missing or
the empty string, `lookup` from any registered origin reports not-found
(`None`) — truthiness-based hit detection treats `""` as a miss — even
though `find_value` on a node storing `""` does return `some ""`. -/
theorem C9_empty_string_value_lookup_misses (Hash : String → Nat) (dht : KademliaDHT)
    (origin : Nat) (key : String) (node : KademliaNode)
    (horigin : dht.nodes origin = some node)
    (hall : ∀ id n, dht.nodes id = some n →
      find_value Hash n key = none ∨ find_value Hash n key = some "") :
    lookup Hash dht origin key = none ∧
    (∀ id n, dht.nodes id = some n → n.storage (Hash key) = some "" →
      find_value Hash n key = some "") := by
  refine ⟨?_, fun id n _ hs => hs⟩
  have hscan : ∀ cs : List Nat, scanCandidates Hash dht key cs = none := by
    intro cs
    rw [scanCandidates_eq_filterMap]
    have hfm : cs.filterMap (candidateHit Hash dht key) = [] := by
      rw [List.filterMap_eq_nil_iff]
      intro c _
      unfold candidateHit
      cases h : dht.nodes c with
      | none => rfl
      | some n => rcases hall c n h with hv | hv <;> simp [hv]
    rw [hfm]
    rfl
  rcases hall origin node horigin with hv | hv <;>
    simp [lookup, horigin, hv, pyTruthy, hscan]

/-- Witness for claim C9: one registered node stores `""` under the key. -/
theorem C9_empty_string_value_lookup_misses_witness :
    (dht_add_node ⟨fun _ => none⟩ (store (fun _ => 0) (initNode 1 20) "k" "")).nodes 1 =
      some (store (fun _ => 0) (initNode 1 20) "k" "") ∧
    (∀ id n,
      (dht_add_node ⟨fun _ => none⟩ (store (fun _ => 0) (initNode 1 20) "k" "")).nodes id =
        some n →
      find_value (fun _ => 0) n "k" = none ∨ find_value (fun _ => 0) n "k" = some "") ∧
    (lookup (fun _ => 0)
        (dht_add_node ⟨fun _ => none⟩ (store (fun _ => 0) (initNode 1 20) "k" "")) 1 "k" =
      none ∧
    (∀ id n,
      (dht_add_node ⟨fun _ => none⟩ (store (fun _ => 0) (initNode 1 20) "k" "")).nodes id =
        some n →
      n.storage ((fun _ : String => 0) "k") = some "" →
      find_value (fun _ => 0) n "k" = some "")) := by
  have hreg : (dht_add_node ⟨fun _ => none⟩
      (store (fun _ => 0) (initNode 1 20) "k" "")).nodes 1 =
      some (store (fun _ => 0) (initNode 1 20) "k" "") := by
    simp [dht_add_node, store, initNode]
  have hall : ∀ id n,
      (dht_add_node ⟨fun _ => none⟩ (store (fun _ => 0) (initNode 1 20) "k" "")).nodes id =
        some n →
      find_value (fun _ => 0) n "k" = none ∨ find_value (fun _ => 0) n "k" = some "" := by
    intro id n h
    simp [dht_add_node, store, initNode] at h
    rcases h with ⟨_, rfl⟩
    right
    rfl
  exact ⟨hreg, hall,
    C9_empty_string_value_lookup_misses (fun _ => 0) _ 1 "k"
      (store (fun _ => 0) (initNode 1 20) "k" "") hreg hall⟩

/-! ## Claim C5 -/

/-- Everything in an inserted bucket was already there or is the new id. -/
theorem bucketInsert_mem (k : Nat) (bucket : List Nat) (id x : Nat)
    (hx : x ∈ bucketInsert k bucket id) : x ∈ bucket ∨ x = id := by
  unfold bucketInsert at hx
  by_cases hmem : id ∈ bucket
  · rw [if_pos hmem] at hx
    rcases List.mem_append.mp hx with h | h
    · exact Or.inl (List.erase_subset _ _ h)
    · exact Or.inr (List.mem_singleton.mp h)
  · rw [if_neg hmem] at hx
    by_cases hl : bucket.length < k
    · rw [if_pos hl] at hx
      rcases List.mem_append.mp hx with h | h
      · exact Or.inl h
      · exact Or.inr (List.mem_singleton.mp h)
    · rw [if_neg hl] at hx
      rcases List.mem_append.mp hx with h | h
      · exact Or.inl (List.tail_subset _ h)
      · exact Or.inr (List.mem_singleton.mp h)

/-- `bucketInsert` keeps a bucket duplicate-free. -/
theorem bucketInsert_nodup (k : Nat) (bucket : List Nat) (id : Nat)
    (h : bucket.Nodup) : (bucketInsert k bucket id).Nodup := by
  unfold bucketInsert
  by_cases hmem : id ∈ bucket
  · rw [if_pos hmem, List.nodup_append]
    refine ⟨h.erase id, List.nodup_singleton id, ?_⟩
    intro x hx hx2
    rw [List.mem_singleton] at hx2
    subst hx2
    exact h.not_mem_erase hx
  · rw [if_neg hmem]
    by_cases hl : bucket.length < k
    · rw [if_pos hl, List.nodup_append]
      refine ⟨h, List.nodup_singleton id, ?_⟩
      intro x hx hx2
      rw [List.mem_singleton] at hx2
      subst hx2
      exact hmem hx
    · rw [if_neg hl, List.nodup_append]
      refine ⟨(List.tail_sublist bucket).nodup h, List.nodup_singleton id, ?_⟩
      intro x hx hx2
      rw [List.mem_singleton] at hx2
      subst hx2
      exact hmem (List.tail_subset _ hx)

/-- `add_node` never changes the owning identifier. -/
theorem add_node_node_id (t : KademliaNode) (id : Nat) :
    (add_node t id).node_id = t.node_id := by
  unfold add_node
  split <;> rfl

/-- `add_node` never changes the bucket capacity. -/
theorem add_node_k (t : KademliaNode) (id : Nat) : (add_node t id).k = t.k := by
  unfold add_node
  split <;> rfl

/-- One `add_node` preserves the strengthened routing-table invariant. -/
theorem tableAux_add_node (t : KademliaNode) (id : Nat) (hk : 0 < t.k) (h : tableAux t) :
    tableAux (add_node t id) := by
  obtain ⟨hb, hal⟩ := h
  unfold add_node
  by_cases hself : id = t.node_id
  · rw [if_pos hself]
    exact ⟨hb, hal⟩
  rw [if_neg hself]
  have hoblen : (t.buckets.getD (bucket_index t id) []).length ≤ t.k := by
    rw [List.getD_eq_getElem?_getD]
    cases hge : t.buckets[bucket_index t id]? with
    | none => simp
    | some b => simpa using (hb b (List.getElem?_mem hge)).1
  have hobnd : (t.buckets.getD (bucket_index t id) []).Nodup := by
    rw [List.getD_eq_getElem?_getD]
    cases hge : t.buckets[bucket_index t id]? with
    | none => simp
    | some b => simpa using (hb b (List.getElem?_mem hge)).2
  constructor
  · intro b hbmem
    rcases List.mem_or_eq_of_mem_set hbmem with hmem | rfl
    · exact hb b hmem
    · exact ⟨bucketInsert_length_le _ _ _ hk hoblen, bucketInsert_nodup _ _ _ hobnd⟩
  · intro i id2 hid2
    show bucket_index t id2 = i ∧ id2 ≠ t.node_id
    have hid2x : id2 ∈ ((t.buckets.set (bucket_index t id)
        (bucketInsert t.k (t.buckets.getD (bucket_index t id) []) id))[i]?).getD [] := by
      rw [← List.getD_eq_getElem?_getD]
      exact hid2
    rw [List.getElem?_set] at hid2x
    by_cases hij : bucket_index t id = i
    · rw [if_pos hij] at hid2x
      by_cases hlt : bucket_index t id < t.buckets.length
      · rw [if_pos hlt] at hid2x
        simp only [Option.getD_some] at hid2x
        rcases bucketInsert_mem _ _ _ _ hid2x with hmem | rfl
        · have hres := hal (bucket_index t id) id2 hmem
          exact ⟨hij ▸ hres.1, hres.2⟩
        · exact ⟨hij, hself⟩
      · rw [if_neg hlt] at hid2x
        simp at hid2x
    · rw [if_neg hij] at hid2x
      exact hal i id2 (by rw [List.getD_eq_getElem?_getD]; exact hid2x)

/-- A fresh node satisfies the strengthened invariant. -/
theorem tableAux_init (nid k : Nat) : tableAux (initNode nid k) := by
  constructor
  · intro b hbmem
    have hbe : b = [] := List.eq_of_mem_replicate hbmem
    subst hbe
    simp
  · intro i id hid
    exfalso
    have hgd : (List.replicate 160 ([] : List Nat)).getD i [] = [] := by
      rw [List.getD_eq_getElem?_getD, List.getElem?_replicate]
      split <;> rfl
    rw [show (initNode nid k).buckets = List.replicate 160 [] from rfl, hgd] at hid
    exact List.not_mem_nil id hid

/-- Any sequence of inserts preserves the strengthened invariant. -/
theorem tableAux_foldl (ids : List Nat) (t : KademliaNode) (hk : 0 < t.k)
    (h : tableAux t) : tableAux (ids.foldl add_node t) := by
  induction ids generalizing t with
  | nil => simpa
  | cons i rest ih =>
    simp only [List.foldl_cons]
    exact ih _ (by rw [add_node_k]; exact hk) (tableAux_add_node t i hk h)

/-- Claim C5: after any sequence of inserts starting from a fresh routing
table (with capacity `k ≥ 1`), every bucket is within capacity and
duplicate-free, each identifier occupies at most one bucket, the table never
contains the owner's identifier, and the owner identifier and capacity are
unchanged. -/
theorem C5_routing_table_invariants (nid k : Nat) (ids : List Nat) (hk : 0 < k) :
    routingTableInv (ids.foldl add_node (initNode nid k)) ∧
    (ids.foldl add_node (initNode nid k)).node_id = nid ∧
    (ids.foldl add_node (initNode nid k)).k = k := by
  have hnid : ∀ (l : List Nat) (t : KademliaNode),
      (l.foldl add_node t).node_id = t.node_id := by
    intro l
    induction l with
    | nil => intro t; rfl
    | cons i rest ih =>
      intro t
      simp only [List.foldl_cons]
      rw [ih, add_node_node_id]
  have hkk : ∀ (l : List Nat) (t : KademliaNode), (l.foldl add_node t).k = t.k := by
    intro l
    induction l with
    | nil => intro t; rfl
    | cons i rest ih =>
      intro t
      simp only [List.foldl_cons]
      rw [ih, add_node_k]
  obtain ⟨hb, hal⟩ := tableAux_foldl ids (initNode nid k) hk (tableAux_init nid k)
  refine ⟨⟨hb, ?_, ?_⟩, hnid ids (initNode nid k), hkk ids (initNode nid k)⟩
  · intro i j id hi hj
    rw [← (hal i id hi).1, ← (hal j id hj).1]
  · intro b hbmem hidmem
    obtain ⟨i, hlt, hbe⟩ := List.mem_iff_getElem.mp hbmem
    have hgd : (ids.foldl add_node (initNode nid k)).buckets.getD i [] = b := by
      rw [List.getD_eq_getElem?_getD, List.getElem?_eq_getElem hlt, Option.getD_some, hbe]
    exact (hal i _ (hgd ▸ hidmem)).2 rfl

/-- Witness for claim C5 on a concrete insertion sequence. -/
theorem C5_routing_table_invariants_witness :
    0 < 2 ∧
    (routingTableInv (([1, 2, 3, 2] : List Nat).foldl add_node (initNode 0 2)) ∧
      (([1, 2, 3, 2] : List Nat).foldl add_node (initNode 0 2)).node_id = 0 ∧
      (([1, 2, 3, 2] : List Nat).foldl add_node (initNode 0 2)).k = 2) :=
  ⟨by decide, C5_routing_table_invariants 0 2 [1, 2, 3, 2] (by decide)⟩

end Kademlia
